import Mathlib

/-!
Verification of the cancerjobs refresh/matching pipeline.

The TypeScript source is embedded shallowly: strings are `List Char`,
JavaScript numbers that carry fractional values are `ℚ`, SQL tables are
Lean lists of row structures, and each database operation is a pure
function over a `DbState`.  Trigonometric floating-point code
(`haversineMeters`) and Unicode tables (NFKD decomposition, combining
marks) are not representable exactly, so the definitions that use them
are parameterised by those functions; every theorem below holds for all
instantiations.
-/

/-- Character-list strings, the carrier for all embedded text. -/
abbrev Str := List Char

/-- JavaScript `String.prototype.trim`: drop leading and trailing whitespace. -/
def jsTrim (s : Str) : Str :=
  ((s.dropWhile Char.isWhitespace).reverse.dropWhile Char.isWhitespace).reverse

/-- JavaScript `toLowerCase` restricted to the character-wise mapping. -/
def toLowerStr (s : Str) : Str :=
  s.map Char.toLower

/-- `replace(/\s+/g, " ")`: collapse every maximal whitespace run to one space.
The boolean records whether the previous character was part of a run. -/
def collapseWsAux : List Char → Bool → List Char
  | [], _ => []
  | c :: rest, prevWs =>
    if c.isWhitespace then
      if prevWs then collapseWsAux rest true
      else ' ' :: collapseWsAux rest true
    else c :: collapseWsAux rest false

/-- `replace(/\s+/g, " ")` on a whole string. -/
def collapseWs (s : Str) : Str :=
  collapseWsAux s false

/-- `sanitizeText` from `utils.ts`: trim, return null when empty, truncate. -/
def sanitizeText (value : Option Str) (maxLength : Nat) : Option Str :=
  match value with
  | none => none
  | some s =>
    let trimmed := jsTrim s
    if trimmed = [] then none else some (trimmed.take maxLength)

/-- `normalizeCompanyName` from `csv.ts`: trim, lowercase, collapse whitespace.
This is the normalization actually applied to stored company names. -/
def normalizeCompanyName (value : Str) : Str :=
  collapseWs (toLowerStr (jsTrim value))

/-- `normalizeHeader` from `csv.ts`. -/
def normalizeHeader (value : Str) : Str :=
  toLowerStr (jsTrim value)

/-- State of the streaming CSV lexer of `parseCsvRows`:
accumulated rows, the current row, the current cell, and the quote flag. -/
structure CsvLexState where
  rows : List (List Str)
  row : List Str
  value : Str
  inQuotes : Bool

/-- One step per character of the `parseCsvRows` while-loop.  Double quotes
escape inside quoted cells, commas and newlines terminate cells and rows,
carriage returns are skipped, and each pushed cell is trimmed. -/
def parseCsvRowsAux : List Char → CsvLexState → Except Str CsvLexState
  | [], st => .ok st
  | c :: cs, st =>
    if st.inQuotes then
      if c = '"' then
        match _h : cs with
        | '"' :: cs2 =>
          parseCsvRowsAux cs2 { st with value := st.value ++ ['"'] }
        | _ => parseCsvRowsAux cs { st with inQuotes := false }
      else parseCsvRowsAux cs { st with value := st.value ++ [c] }
    else if c = '"' then
      parseCsvRowsAux cs { st with inQuotes := true }
    else if c = ',' then
      parseCsvRowsAux cs
        { st with row := st.row ++ [jsTrim st.value], value := [] }
    else if c = '\n' then
      parseCsvRowsAux cs
        { st with
          rows := st.rows ++ [st.row ++ [jsTrim st.value]]
          row := []
          value := [] }
    else if c = '\r' then
      parseCsvRowsAux cs st
    else
      parseCsvRowsAux cs { st with value := st.value ++ [c] }
termination_by l _ => l.length
decreasing_by all_goals simp_all [List.length_cons] <;> omega

/-- `parseCsvRows` from `csv.ts`: lex the body, fail on an unterminated
quote, flush the trailing cell, and drop rows whose cells are all empty. -/
def parseCsvRows (csvText : Str) : Except Str (List (List Str)) := do
  let st ← parseCsvRowsAux csvText ⟨[], [], [], false⟩
  if st.inQuotes then
    .error "CSV parsing failed: unterminated quote.".toList
  else
    let collected :=
      if st.value.length > 0 ∨ st.row.length > 0 then
        st.rows ++ [st.row ++ [jsTrim st.value]]
      else st.rows
    .ok (collected.filter (fun candidate => candidate.any (fun cell => cell.length > 0)))

/-- Association-list `Map.set` with JavaScript semantics: an existing key is
overwritten in place, a new key is appended. -/
def assocSet {β : Type} (m : List (Str × β)) (key : Str) (val : β) : List (Str × β) :=
  if m.any (fun p => p.1 = key) then
    m.map (fun p => if p.1 = key then (key, val) else p)
  else m ++ [(key, val)]

/-- `headerIndex` construction: later duplicate headers overwrite earlier
positions, as with `Map.set` in the source. -/
def buildHeaderIndex (headerRow : List Str) : List (Str × Nat) :=
  headerRow.enum.foldl (fun m p => assocSet m p.2 p.1) []

/-- `getValue` inside the row loops: look the header up, read the cell,
trim it, defaulting to the empty string. -/
def csvGetValue (headerIndex : List (Str × Nat)) (csvRow : List Str) (header : Str) : Str :=
  match headerIndex.lookup header with
  | none => []
  | some cellIndex =>
    match csvRow.get? cellIndex with
    | none => []
    | some cell => jsTrim cell

/-- A parsed company CSV row (`CsvCompanyRow` in `types.ts`), restricted to
the fields the claims touch. -/
structure CsvCompanyRow where
  companyName : Str
  companyNameNormalized : Str
  knownAliases : Option Str
deriving DecidableEq, Repr

/-- `sanitizeKnownAliases` from `csv.ts`: split on `|`, sanitize each alias,
drop aliases normalizing to the company name, dedupe on the normalized
form keeping the first spelling, rejoin with `|`. -/
def sanitizeKnownAliases (rawValue : Option Str) (companyName : Str) : Option Str :=
  match sanitizeText rawValue 4000 with
  | none => none
  | some candidate =>
    let companyNameNormalized := normalizeCompanyName companyName
    let deduped :=
      (candidate.splitOn '|').foldl
        (fun (acc : List (Str × Str)) aliasToken =>
          match sanitizeText (some aliasToken) 180 with
          | none => acc
          | some al =>
            let aliasNormalized := normalizeCompanyName al
            if aliasNormalized = [] ∨ aliasNormalized = companyNameNormalized then acc
            else if acc.any (fun p => p.1 = aliasNormalized) then acc
            else acc ++ [(aliasNormalized, al)])
        []
    if deduped = [] then none
    else some (List.intercalate ['|'] (deduped.map (fun p => p.2)))

/-- One validation issue, `CsvValidationIssue` in `types.ts`. -/
structure CsvValidationIssue where
  row : Nat
  reason : Str
deriving DecidableEq, Repr

/-- The dedupe map of `parseCompaniesCsv`: keyed on the normalized name, a
repeated key overwrites in place (JavaScript `Map.set`). -/
def companiesAssocSet (m : List (Str × CsvCompanyRow)) (key : Str) (val : CsvCompanyRow) :
    List (Str × CsvCompanyRow) :=
  if m.any (fun p => p.1 = key) then
    m.map (fun p => if p.1 = key then (key, val) else p)
  else m ++ [(key, val)]

/-- The body of the `parseCompaniesCsv` row loop for one data row. -/
def parseCompanyRowStep (headerIndex : List (Str × Nat))
    (acc : List (Str × CsvCompanyRow) × List CsvValidationIssue)
    (item : Nat × List Str) :
    List (Str × CsvCompanyRow) × List CsvValidationIssue :=
  let csvRow := item.2
  let rowIndex := item.1
  let getValue := csvGetValue headerIndex csvRow
  match sanitizeText (some (getValue "company_name".toList)) 300 with
  | none =>
    (acc.1, acc.2 ++ [⟨rowIndex + 1, "company_name is required.".toList⟩])
  | some companyName =>
    let companyNameNormalized := normalizeCompanyName companyName
    if companyNameNormalized = [] then
      (acc.1, acc.2 ++
        [⟨rowIndex + 1,
          "company_name must include at least one non-whitespace character.".toList⟩])
    else
      let knownAliases :=
        sanitizeKnownAliases (some (getValue "known_aliases".toList)) companyName
      (companiesAssocSet acc.1 companyNameNormalized
        ⟨companyName, companyNameNormalized, knownAliases⟩, acc.2)

/-- `parseCompaniesCsv` from `csv.ts`: lex, check the required header,
validate each data row, dedupe on the normalized name, and return the
surviving rows with the per-row issues. -/
def parseCompaniesCsv (csvText : Str) :
    Except Str (List CsvCompanyRow × List CsvValidationIssue) := do
  let parsedRows ← parseCsvRows csvText
  if parsedRows = [] then
    .error "CSV parsing failed: no rows found.".toList
  else
    let headerRow := (parsedRows.headD []).map normalizeHeader
    let headerIndex := buildHeaderIndex headerRow
    if (headerIndex.lookup "company_name".toList).isNone then
      .error "CSV parsing failed: missing required header.".toList
    else
      let dataRows := List.enumFrom 1 (parsedRows.drop 1)
      let result := dataRows.foldl (parseCompanyRowStep headerIndex) ([], [])
      .ok (result.1.map (fun p => p.2), result.2)

/-- Corporate suffix tokens dropped by the matcher normalization
(`CORPORATE_SUFFIXES` in `company-match.ts`). -/
def corporateSuffixes : List Str :=
  ["inc", "incorporated", "llc", "ltd", "limited", "corp", "corporation",
   "co", "company", "plc", "gmbh", "sa", "ag", "nv", "bv", "sarl", "spa",
   "holdings", "holding"].map String.toList

/-- Low-signal stopword tokens (`LOW_SIGNAL_TOKENS` in `company-match.ts`). -/
def lowSignalTokens : List Str :=
  ["the", "of", "and", "for", "to", "in", "on", "at", "by", "from", "with",
   "de", "la", "le", "el", "da", "do", "di", "du", "del", "des", "van",
   "von", "y", "a", "an"].map String.toList

/-- `&` → `" and "` replacement step of `normalizeCompanyText`. -/
def replaceAmpersand (s : Str) : Str :=
  s.flatMap (fun c => if c = '&' then " and ".toList else [c])

/-- Apostrophe stripping step of `normalizeCompanyText` (`[’']` removed). -/
def stripApostrophes (s : Str) : Str :=
  s.filter (fun c => c ≠ '\'' ∧ c ≠ '’')

/-- `[^a-z0-9]+` → space (runs collapse later, so per-character is enough). -/
def nonAlnumToSpace (s : Str) : Str :=
  s.map (fun c => if ('a' ≤ c ∧ c ≤ 'z') ∨ ('0' ≤ c ∧ c ≤ '9') then c else ' ')

/-- `normalizeCompanyText` from `company-match.ts`, parameterised by the
Unicode NFKD decomposition and the combining-mark predicate (the only two
steps whose tables are outside this embedding): NFKD, lowercase, strip
marks, `&` → `" and "`, strip apostrophes, non-alphanumerics → space,
trim, collapse whitespace, then drop corporate-suffix and low-signal
tokens and rejoin. -/
def normalizeCompanyTextWith (nfkd : Str → Str) (isMark : Char → Bool) (value : Str) : Str :=
  let normalized :=
    collapseWs (jsTrim (nonAlnumToSpace (stripApostrophes (replaceAmpersand
      ((toLowerStr (nfkd value)).filter (fun c => !isMark c))))))
  if normalized = [] then []
  else
    let tokens :=
      (normalized.splitOn ' ').filter
        (fun token =>
          token ≠ [] ∧ token ∉ corporateSuffixes ∧ token ∉ lowSignalTokens)
    List.intercalate [' '] tokens

/-- The concrete normalizer on inputs where NFKD is the identity and no
combining marks occur (all ASCII text). -/
def normalizeCompanyTextAscii : Str → Str :=
  normalizeCompanyTextWith id (fun _ => false)

/-- `splitTokens`: split on spaces, trim, drop empties, dedupe keeping the
first occurrence (JavaScript `Set` insertion order). -/
def splitTokens (normalizedValue : Str) : List Str :=
  if normalizedValue = [] then []
  else
    (((normalizedValue.splitOn ' ').map jsTrim).filter (· ≠ [])).eraseDups

/-- JavaScript `includes`: some contiguous slice of the haystack equals
the needle. -/
def containsSub (needle : Str) : Str → Bool
  | [] => needle.isPrefixOf ([] : Str)
  | c :: rest => needle.isPrefixOf (c :: rest) || containsSub needle rest

/-- `containsPhrase`: the needle equals the haystack, or occurs at a
whole-token boundary (prefix + space, space + suffix, or space-delimited
inside). -/
def containsPhrase (haystack needle : Str) : Bool :=
  if haystack = [] ∨ needle = [] then false
  else if haystack = needle then true
  else if (needle ++ [' ']).isPrefixOf haystack then true
  else if ([' '] ++ needle).isSuffixOf haystack then true
  else containsSub ([' '] ++ needle ++ [' ']) haystack

/-- Inner loop of the Levenshtein dynamic program: walk one row.  `diag` is
`previous[j-1]`, `leftVal` is `current[j-1]`, and the list pairs each
remaining right-hand character with `previous[j]`. -/
def levRowGo (ch : Char) : Nat → Nat → List (Char × Nat) → List Nat
  | _, _, [] => []
  | diag, leftVal, (c, pj) :: rest =>
    let substitutionCost := if c = ch then 0 else 1
    let cur := min (pj + 1) (min (leftVal + 1) (diag + substitutionCost))
    cur :: levRowGo ch pj cur rest

/-- One outer iteration of the dynamic program: from the previous row and
the next left-hand character, produce the current row. -/
def levNextRow (right : List Char) (prev : List Nat) (ch : Char) : List Nat :=
  match prev with
  | [] => []
  | p0 :: prest => (p0 + 1) :: levRowGo ch p0 (p0 + 1) (right.zip prest)

/-- `levenshteinDistance` from `company-match.ts`: the row-by-row dynamic
program, with the same three early returns. -/
def levenshteinDistance (left right : Str) : Nat :=
  if left = right then 0
  else if left = [] then right.length
  else if right = [] then left.length
  else (left.foldl (levNextRow right) (List.range (right.length + 1))).getLastD 0

/-- `editSimilarity`: `1 − distance / max(|left|, |right|)`, zero when either
side is empty.  The subtraction is carried out on the numerator
(`(maxLength − distance) / maxLength`), which is the same rational. -/
def editSimilarity (left right : Str) : ℚ :=
  if left = [] ∨ right = [] then 0
  else
    let maxLength := max left.length right.length
    if maxLength = 0 then 0
    else mkRat ((maxLength : Int) - (levenshteinDistance left right : Int)) maxLength

/-- `sharedTokenCount`: distinct tokens of the left side also present on the
right (set semantics on both sides). -/
def sharedTokenCount (left right : List Str) : Nat :=
  if left = [] ∨ right = [] then 0
  else (left.eraseDups.filter (fun token => right.contains token)).length

/-- `MIN_ACCEPT_SCORE = 0.86` from `company-match.ts` (rational literals are
written with `mkRat` throughout so that concrete runs reduce). -/
def minAcceptScore : ℚ := mkRat 86 100

/-- The token-containment ratio of `computeSimilarity`:
`shared / min(|A|,|B|)`, zero on a zero denominator. -/
def simContainment (officeTokens variantTokens : List Str) : ℚ :=
  if 0 < min officeTokens.length variantTokens.length then
    mkRat (sharedTokenCount officeTokens variantTokens)
      (min officeTokens.length variantTokens.length)
  else 0

/-- The token-Jaccard ratio of `computeSimilarity`: `shared / |A ∪ B|`,
zero on a zero denominator. -/
def simJaccard (officeTokens variantTokens : List Str) : ℚ :=
  if 0 < officeTokens.length + variantTokens.length -
      sharedTokenCount officeTokens variantTokens then
    mkRat (sharedTokenCount officeTokens variantTokens)
      (officeTokens.length + variantTokens.length -
        sharedTokenCount officeTokens variantTokens)
  else 0

/-- The initial blended score of `computeSimilarity`:
`0.5·containment + 0.2·jaccard + 0.3·edit`. -/
def simBlendedScore (officeNormalized : Str) (officeTokens : List Str)
    (variantNormalized : Str) (variantTokens : List Str) : ℚ :=
  simContainment officeTokens variantTokens * mkRat 5 10 +
    simJaccard officeTokens variantTokens * mkRat 2 10 +
    editSimilarity officeNormalized variantNormalized * mkRat 3 10

/-- The score after the phrase-containment boost: when either normalized
string contains the other as a whole-token phrase and the shorter has
length ≥ 4, the score is raised to at least 0.91. -/
def simAfterPhraseBoost (officeNormalized : Str) (officeTokens : List Str)
    (variantNormalized : Str) (variantTokens : List Str) : ℚ :=
  if (containsPhrase officeNormalized variantNormalized ||
        containsPhrase variantNormalized officeNormalized) ∧
      4 ≤ min officeNormalized.length variantNormalized.length then
    max (simBlendedScore officeNormalized officeTokens variantNormalized variantTokens)
      (mkRat 91 100)
  else simBlendedScore officeNormalized officeTokens variantNormalized variantTokens

/-- The score after the strong-containment boost: full containment with a
denominator ≥ 2 and edit similarity ≥ 0.8 raises the score to at least
0.9. -/
def simAfterStrongBoost (officeNormalized : Str) (officeTokens : List Str)
    (variantNormalized : Str) (variantTokens : List Str) : ℚ :=
  if simContainment officeTokens variantTokens = 1 ∧
      2 ≤ min officeTokens.length variantTokens.length ∧
      mkRat 8 10 ≤ editSimilarity officeNormalized variantNormalized then
    max (simAfterPhraseBoost officeNormalized officeTokens variantNormalized variantTokens)
      (mkRat 9 10)
  else simAfterPhraseBoost officeNormalized officeTokens variantNormalized variantTokens

/-- `computeSimilarity` from `company-match.ts`: exact equality scores 1;
otherwise a weighted blend of containment, Jaccard and edit similarity,
then the phrase-containment boost, the strong-containment boost, and the
equal-single-token override to 1.  The source's sequential reassignments
of `score` are the staged functions above. -/
def computeSimilarity (officeNormalized : Str) (officeTokens : List Str)
    (variantNormalized : Str) (variantTokens : List Str) : ℚ :=
  if officeNormalized = variantNormalized then 1
  else
    match officeTokens, variantTokens with
    | [officeToken], [variantToken] =>
      if officeToken = variantToken then 1
      else
        simAfterStrongBoost officeNormalized [officeToken] variantNormalized [variantToken]
    | _, _ =>
      simAfterStrongBoost officeNormalized officeTokens variantNormalized variantTokens

/-- OSM element kinds. -/
inductive OsmType
  | node
  | way
  | relation
deriving DecidableEq, Repr

/-- `Office` from `types.ts`, restricted to the fields the claims touch. -/
structure Office where
  osmType : OsmType
  osmId : Int
  name : Option Str
  brand : Option Str
  operator : Option Str
  website : Option Str
  wikidata : Option Str
  lat : ℚ
  lon : ℚ
  lowConfidence : Bool
deriving DecidableEq, Repr

/-- Origin of a company variant. -/
inductive VariantSource
  | companyName
  | alias
deriving DecidableEq, Repr

/-- Which office field a match was found on. -/
inductive MatchedField
  | nameField
  | brandField
  | operatorField
deriving DecidableEq, Repr

/-- `CompanyVariant` from `company-match.ts`. -/
structure CompanyVariant where
  companyId : Int
  companyName : Str
  normalizedName : Str
  source : VariantSource
  rawValue : Str
  tokens : List Str
deriving DecidableEq, Repr

/-- `CompanyMatchIndex`: the variant pool plus the exact and per-token
indexes, both modelled as association lists from key to bucket. -/
structure CompanyMatchIndex where
  variants : List CompanyVariant
  exactIndex : List (Str × List Nat)
  tokenIndex : List (Str × List Nat)
deriving DecidableEq, Repr

/-- `CompanyMatchResult` from `company-match.ts`. -/
structure CompanyMatchResult where
  companyId : Int
  companyName : Str
  matchedOn : MatchedField
  matchedVariant : Str
  source : VariantSource
  score : ℚ
deriving DecidableEq, Repr

/-- The `bestMatch` accumulator: a result plus the index of its variant. -/
structure BestMatch where
  companyId : Int
  companyName : Str
  matchedOn : MatchedField
  matchedVariant : Str
  source : VariantSource
  score : ℚ
  variantIndex : Nat
deriving DecidableEq, Repr

/-- `CompanyMatchRecord` from `company-match.ts`. -/
structure CompanyMatchRecord where
  id : Int
  companyName : Str
  knownAliases : Option Str
deriving DecidableEq, Repr

/-- `parseAliases`: split the pipe-delimited raw aliases, trim, drop empties. -/
def parseAliases (rawAliases : Option Str) : List Str :=
  match rawAliases with
  | none => []
  | some raw => ((raw.splitOn '|').map jsTrim).filter (· ≠ [])

/-- `addVariant`: normalize the raw value, skip empty or per-company
duplicate normalized forms, append the variant.  The second component is
the `dedupePerCompany` set. -/
def addVariant (normText : Str → Str)
    (state : List CompanyVariant × List (Int × Str)) (companyId : Int)
    (companyNameValue : Str) (source : VariantSource) (rawValue : Str) :
    List CompanyVariant × List (Int × Str) :=
  let normalizedName := normText rawValue
  if normalizedName = [] then state
  else if (companyId, normalizedName) ∈ state.2 then state
  else
    (state.1 ++
      [⟨companyId, companyNameValue, normalizedName, source, rawValue,
        splitTokens normalizedName⟩],
      state.2 ++ [(companyId, normalizedName)])

/-- Append one variant index to the bucket of `key` (`Map.get ?? []` then
push and `Map.set`). -/
def indexAdd (m : List (Str × List Nat)) (key : Str) (i : Nat) : List (Str × List Nat) :=
  assocSet m key (((m.lookup key).getD []) ++ [i])

/-- `buildCompanyMatchIndex` from `company-match.ts`. -/
def buildCompanyMatchIndex (normText : Str → Str) (records : List CompanyMatchRecord) :
    CompanyMatchIndex :=
  let variants :=
    (records.foldl
      (fun st record =>
        let st1 := addVariant normText st record.id record.companyName
          VariantSource.companyName record.companyName
        (parseAliases record.knownAliases).foldl
          (fun st2 al => addVariant normText st2 record.id record.companyName
            VariantSource.alias al)
          st1)
      ([], [])).1
  let exactIndex :=
    variants.enum.foldl (fun m p => indexAdd m p.2.normalizedName p.1) []
  let tokenIndex :=
    variants.enum.foldl
      (fun m p => p.2.tokens.foldl (fun m2 token => indexAdd m2 token p.1) m) []
  ⟨variants, exactIndex, tokenIndex⟩

/-- `preferredVariant` returns the challenger exactly when the sources are
equal or the challenger came from `company_name`; the source compares the
returned reference against the challenger, which this boolean captures. -/
def preferredVariantIsChallenger (current challenger : CompanyVariant) : Bool :=
  if challenger.source = current.source then true
  else if challenger.source = VariantSource.companyName then true
  else false

/-- The shared best-match update: strictly higher score wins; an equal score
wins only when `preferredVariant` prefers the challenger. -/
def considerCandidate (variants : List CompanyVariant)
    (challenger : CompanyVariant) (m : BestMatch) (best : Option BestMatch) :
    Option BestMatch :=
  match best with
  | none => some m
  | some b =>
    if b.score < m.score then some m
    else if m.score = b.score then
      match variants.get? b.variantIndex with
      | none => some b
      | some currentVariant =>
        if preferredVariantIsChallenger currentVariant challenger then some m
        else some b
    else some b

/-- The exact-index loop of `matchOfficeToCompany`: every bucket entry is a
candidate with score 1. -/
def processExactIndexes (variants : List CompanyVariant) (candidateFrom : MatchedField)
    (indexes : List Nat) (best : Option BestMatch) : Option BestMatch :=
  indexes.foldl
    (fun acc variantIndex =>
      match variants.get? variantIndex with
      | none => acc
      | some variant =>
        considerCandidate variants variant
          ⟨variant.companyId, variant.companyName, candidateFrom,
            variant.rawValue, variant.source, 1, variantIndex⟩ acc)
    best

/-- The shortlist of `matchOfficeToCompany`: the union over the candidate's
tokens of the token-index buckets, first occurrences kept. -/
def shortlistIndexes (tokenIndex : List (Str × List Nat)) (officeTokens : List Str) :
    List Nat :=
  (officeTokens.foldl (fun acc token => acc ++ ((tokenIndex.lookup token).getD [])) []).eraseDups

/-- The shortlist loop: score each shortlisted variant, drop scores below
`MIN_ACCEPT_SCORE`, feed the rest to the best-match update. -/
def processShortlist (variants : List CompanyVariant) (officeNormalized : Str)
    (officeTokens : List Str) (candidateFrom : MatchedField) (indexes : List Nat)
    (best : Option BestMatch) : Option BestMatch :=
  indexes.foldl
    (fun acc variantIndex =>
      match variants.get? variantIndex with
      | none => acc
      | some variant =>
        let score := computeSimilarity officeNormalized officeTokens
          variant.normalizedName variant.tokens
        if score < minAcceptScore then acc
        else
          considerCandidate variants variant
            ⟨variant.companyId, variant.companyName, candidateFrom,
              variant.rawValue, variant.source, score, variantIndex⟩ acc)
    best

/-- `pushCandidate` inside `uniqueOfficeNames`: keep a raw value whose
normalized form is non-empty and unseen.  The second component is the
`seen` set of normalized forms. -/
def pushCandidate (normText : Str → Str)
    (acc : List (Str × MatchedField) × List Str) (value : Option Str)
    (fieldName : MatchedField) : List (Str × MatchedField) × List Str :=
  match value with
  | none => acc
  | some v =>
    let normalized := normText v
    if normalized = [] ∨ normalized ∈ acc.2 then acc
    else (acc.1 ++ [(v, fieldName)], acc.2 ++ [normalized])

/-- `uniqueOfficeNames`: candidate strings in the order name, brand,
operator, deduplicated on their normalized form. -/
def uniqueOfficeNames (normText : Str → Str) (office : Office) :
    List (Str × MatchedField) :=
  (pushCandidate normText
    (pushCandidate normText
      (pushCandidate normText ([], []) office.name MatchedField.nameField)
      office.brand MatchedField.brandField)
    office.operator MatchedField.operatorField).1

/-- Processing of one candidate string: exact-index hits first, then the
token shortlist. -/
def processCandidate (normText : Str → Str) (companyIndex : CompanyMatchIndex)
    (best : Option BestMatch) (candidate : Str × MatchedField) : Option BestMatch :=
  let officeNormalized := normText candidate.1
  if officeNormalized = [] then best
  else
    let officeTokens := splitTokens officeNormalized
    if officeTokens = [] then best
    else
      let best1 := processExactIndexes companyIndex.variants candidate.2
        ((companyIndex.exactIndex.lookup officeNormalized).getD []) best
      processShortlist companyIndex.variants officeNormalized officeTokens
        candidate.2 (shortlistIndexes companyIndex.tokenIndex officeTokens) best1

/-- `matchOfficeToCompany` from `company-match.ts`. -/
def matchOfficeToCompany (normText : Str → Str) (office : Office)
    (companyIndex : CompanyMatchIndex) : Option CompanyMatchResult :=
  if companyIndex.variants = [] then none
  else
    match (uniqueOfficeNames normText office).foldl
        (processCandidate normText companyIndex) none with
    | none => none
    | some b =>
      some ⟨b.companyId, b.companyName, b.matchedOn, b.matchedVariant, b.source, b.score⟩

/-- Result of `filterOfficesWithKnownCompanies`. -/
structure FilterOfficesResult where
  matchedOffices : List Office
  matchedCount : Nat
  filteredOutCount : Nat
deriving DecidableEq, Repr

/-- `filterOfficesWithKnownCompanies` from `company-match.ts`: keep the
offices for which the matcher produced any result. -/
def filterOfficesWithKnownCompanies (normText : Str → Str) (offices : List Office)
    (companyIndex : CompanyMatchIndex) : FilterOfficesResult :=
  if offices = [] then ⟨[], 0, 0⟩
  else
    let matched := offices.filter
      (fun office => (matchOfficeToCompany normText office companyIndex).isSome)
    ⟨matched, matched.length, offices.length - matched.length⟩

/-- `cancer_centers` row (`CancerCenter` in `types.ts`), restricted to the
fields the claims touch. -/
structure CenterRow where
  id : Int
  centerCode : Str
  name : Str
  lat : ℚ
  lon : ℚ
  isActive : Bool
deriving DecidableEq, Repr

/-- The type of `haversineMeters`.  The source computes it with
floating-point trigonometry, which has no exact embedding, so every
definition that needs a distance takes the function as a parameter and
every theorem holds for all of them. -/
abbrev HaversineFn := ℚ → ℚ → ℚ → ℚ → ℚ

/-- `capOfficesByLimit` from `refresh.ts`: no cap when `maxOffices` is null
or the list fits; otherwise sort by distance to the center ascending
(JavaScript `sort` is stable, as is `mergeSort`) and keep the nearest
`maxOffices`. -/
def capOfficesByLimit (haversineMeters : HaversineFn) (center : CenterRow)
    (offices : List Office) (maxOffices : Option Nat) : List Office :=
  match maxOffices with
  | none => offices
  | some m =>
    if offices.length ≤ m then offices
    else
      (offices.mergeSort (fun left right =>
        decide (haversineMeters center.lat center.lon left.lat left.lon ≤
          haversineMeters center.lat center.lon right.lat right.lon))).take m

/-- `center_office` row (`CenterOffice` in `types.ts`). -/
structure LinkRow where
  centerId : Int
  osmType : OsmType
  osmId : Int
  distanceM : ℚ
  lastSeen : Str
deriving DecidableEq, Repr

/-- `createLinks` from `refresh.ts`. -/
def createLinks (haversineMeters : HaversineFn) (center : CenterRow)
    (offices : List Office) (seenAt : Str) : List LinkRow :=
  offices.map (fun office =>
    ⟨center.id, office.osmType, office.osmId,
      haversineMeters center.lat center.lon office.lat office.lon, seenAt⟩)

/-- `officeKey` from `refresh.ts` builds the string `type:id`; the pair is
an injective model of that key. -/
def officeKey (osmType : OsmType) (osmId : Int) : OsmType × Int :=
  (osmType, osmId)

/-- The pure heart of `refreshCenterOffices` (refresh.ts lines 237–246):
cap, company filter, ban filter, and link construction.  The network fetch
and normalizer in front and the upsert behind are outside this slice; its
`offices` and `links` are exactly what is handed to
`upsertOfficesAndLinks`. -/
structure RefreshPipelineResult where
  cappedOffices : List Office
  matchedCount : Nat
  filteredOutCount : Nat
  offices : List Office
  links : List LinkRow
deriving Repr

/-- The cap → company-filter → ban-filter → links pipeline of
`refreshCenterOffices`. -/
def refreshCenterPipeline (normText : Str → Str) (haversineMeters : HaversineFn)
    (center : CenterRow) (normalizedOffices : List Office) (maxOffices : Option Nat)
    (companyMatchIndex : CompanyMatchIndex) (bannedOfficeKeys : List (OsmType × Int))
    (seenAt : Str) : RefreshPipelineResult :=
  let cappedOffices := capOfficesByLimit haversineMeters center normalizedOffices maxOffices
  let filterResult :=
    filterOfficesWithKnownCompanies normText cappedOffices companyMatchIndex
  let offices := filterResult.matchedOffices.filter
    (fun office => !(bannedOfficeKeys.contains (officeKey office.osmType office.osmId)))
  let links := createLinks haversineMeters center offices seenAt
  ⟨cappedOffices, filterResult.matchedCount, filterResult.filteredOutCount, offices, links⟩

/-- `offices` table row, restricted to the fields the claims touch. -/
structure OfficeRow where
  osmType : OsmType
  osmId : Int
  name : Option Str
  lat : ℚ
  lon : ℚ
  lowConfidence : Bool
deriving DecidableEq, Repr

/-- `banned_offices` table row. -/
structure BannedOfficeRow where
  osmType : OsmType
  osmId : Int
  approvedFlagId : Option Int
  approvedAt : Str
deriving DecidableEq, Repr

/-- `office_deletion_flags.status` values. -/
inductive FlagStatus
  | pending
  | approved
  | rejected
deriving DecidableEq, Repr

/-- `office_deletion_flags` table row. -/
structure FlagRow where
  id : Int
  centerId : Option Int
  osmType : OsmType
  osmId : Int
  reason : Option Str
  status : FlagStatus
  submittedAt : Str
  reviewedAt : Option Str
deriving DecidableEq, Repr

/-- The relational state: one list per table, plus the `refresh_state`
key/value store (its `updated_at` column is not needed by any claim). -/
structure DbState where
  centers : List CenterRow
  offices : List OfficeRow
  links : List LinkRow
  banned : List BannedOfficeRow
  flags : List FlagRow
  refreshState : List (Str × Str)
deriving DecidableEq, Repr

/-- The `NOT EXISTS (SELECT 1 FROM banned_offices …)` subquery. -/
def bannedExists (s : DbState) (osmType : OsmType) (osmId : Int) : Bool :=
  s.banned.any (fun b => b.osmType = osmType ∧ b.osmId = osmId)

/-- `normalizeOfficeName` from `db.ts`: trim, lowercase, collapse whitespace. -/
def normalizeOfficeName (name : Str) : Str :=
  collapseWs (toLowerStr (jsTrim name))

/-- The integer printed by `toFixed(6)`: `⌊x·10⁶ + ½⌋` (nearest, ties
towards +∞), computed on numerator and denominator so that concrete
states evaluate. -/
def coordKey6 (x : ℚ) : Int :=
  Int.fdiv (x.num * 2000000 + (x.den : Int)) (2 * (x.den : Int))

/-- One row of the `listOfficesForCenter` response (`OfficeRecord` in
`db.ts`), restricted to the fields the claims touch. -/
structure OfficeQueryRow where
  osmType : OsmType
  osmId : Int
  name : Option Str
  lat : ℚ
  lon : ℚ
  lowConfidence : Bool
  distanceM : ℚ
deriving DecidableEq, Repr

/-- `name COLLATE NOCASE LIKE <escaped search>% ESCAPE '\'`: the pattern
escapes `%`, `_` and `\`, so it is a case-insensitive prefix test against
the search text truncated to 120 characters. -/
def nameLikeSearch (search : Str) (name : Str) : Bool :=
  (toLowerStr (search.take 120)).isPrefixOf (toLowerStr name)

/-- The WHERE clause of `listOfficesForCenter` applied to one joined
`(office, link)` pair. -/
def officeQueryFilter (s : DbState) (radiusM : ℚ) (highConfidenceOnly : Bool)
    (normalizedSearch : Str) (p : OfficeRow × LinkRow) : Bool :=
  decide (p.2.distanceM ≤ radiusM) &&
    !(bannedExists s p.2.osmType p.2.osmId) &&
    (match p.1.name with
     | none => false
     | some n => jsTrim n ≠ ([] : Str)) &&
    (!highConfidenceOnly || !p.1.lowConfidence) &&
    (normalizedSearch = ([] : Str) ||
      (match p.1.name with
       | none => false
       | some n => nameLikeSearch normalizedSearch n))

/-- The in-memory dedupe after the query: key on the normalized name and
the `toFixed(6)` coordinates, keep the first row per key. -/
def dedupeOfficeRows (rows : List OfficeQueryRow) : List OfficeQueryRow :=
  (rows.foldl
    (fun (acc : List OfficeQueryRow × List (Str × Int × Int)) row =>
      match row.name with
      | none => acc
      | some n =>
        let key := (normalizeOfficeName n, coordKey6 row.lat, coordKey6 row.lon)
        if acc.2.contains key then acc
        else (acc.1 ++ [row], acc.2 ++ [key]))
    ([], [])).1

/-- `listOfficesForCenter` from `db.ts`: join `center_office` with
`offices`, filter by center, radius, banned-absence, non-empty name,
optional confidence and search predicates, order by distance ascending
(`mergeSort` fixes one ORDER-BY-consistent order), apply the optional
limit, project the row, and dedupe in memory. -/
def listOfficesForCenter (s : DbState) (centerId : Int) (radiusM : ℚ)
    (limit : Option Nat) (highConfidenceOnly : Bool) (searchQuery : Option Str) :
    List OfficeQueryRow :=
  let normalizedSearch := jsTrim (searchQuery.getD [])
  let joined := s.links.filterMap (fun link =>
    if link.centerId = centerId then
      match s.offices.find? (fun o => o.osmType == link.osmType && o.osmId == link.osmId) with
      | none => none
      | some o => some (o, link)
    else none)
  let filtered := joined.filter (officeQueryFilter s radiusM highConfidenceOnly normalizedSearch)
  let ordered := filtered.mergeSort (fun a b => decide (a.2.distanceM ≤ b.2.distanceM))
  let limited := match limit with | none => ordered | some n => ordered.take n
  let rows := limited.map (fun p =>
    OfficeQueryRow.mk p.1.osmType p.1.osmId p.1.name p.1.lat p.1.lon
      p.1.lowConfidence p.2.distanceM)
  dedupeOfficeRows rows

/-- Outcomes of `ReviewOfficeDeletionFlagResult` in `db.ts`. -/
inductive ReviewOutcome
  | approved
  | rejected
  | alreadyApproved
  | alreadyRejected
  | notFound
deriving DecidableEq, Repr

/-- `ReviewOfficeDeletionFlagResult` from `db.ts`. -/
structure ReviewFlagResult where
  outcome : ReviewOutcome
  flagId : Int
  osmType : Option OsmType
  osmId : Option Int
  deletedLinks : Nat
  deletedOffices : Nat
deriving DecidableEq, Repr

/-- `getOfficeDeletionFlagStatus`: `SELECT … WHERE id = ?` then `first()`. -/
def getOfficeDeletionFlagStatus (s : DbState) (flagId : Int) : Option FlagRow :=
  s.flags.find? (fun f => f.id == flagId)

/-- Key equality on `(osm_type, osm_id)` as a boolean. -/
def keyMatches (osmType : OsmType) (osmId : Int) (osmType2 : OsmType) (osmId2 : Int) : Bool :=
  osmType == osmType2 && osmId == osmId2

/-- `approveOfficeDeletionFlag` from `db.ts`: missing flag → `not_found`;
already-approved flag → `already_approved` with no writes; otherwise mark
the flag approved with `reviewed_at`, upsert the `banned_offices` row,
delete every `center_office` row and the `offices` row for the pair, and
report the deletion counts. -/
def approveOfficeDeletionFlag (s : DbState) (flagId : Int) (now : Str) :
    ReviewFlagResult × DbState :=
  match getOfficeDeletionFlagStatus s flagId with
  | none => (⟨.notFound, flagId, none, none, 0, 0⟩, s)
  | some existing =>
    if existing.status = FlagStatus.approved then
      (⟨.alreadyApproved, flagId, some existing.osmType, some existing.osmId, 0, 0⟩, s)
    else
      let flags2 := s.flags.map (fun f =>
        if f.id = flagId then
          { f with status := FlagStatus.approved, reviewedAt := some now }
        else f)
      let banned2 :=
        if s.banned.any (fun b => keyMatches b.osmType b.osmId existing.osmType existing.osmId) then
          s.banned.map (fun b =>
            if keyMatches b.osmType b.osmId existing.osmType existing.osmId then
              { b with approvedFlagId := some flagId, approvedAt := now }
            else b)
        else s.banned ++ [⟨existing.osmType, existing.osmId, some flagId, now⟩]
      let deletedLinks :=
        (s.links.filter (fun l => keyMatches l.osmType l.osmId existing.osmType existing.osmId)).length
      let links2 :=
        s.links.filter (fun l => !(keyMatches l.osmType l.osmId existing.osmType existing.osmId))
      let deletedOffices :=
        (s.offices.filter (fun o => keyMatches o.osmType o.osmId existing.osmType existing.osmId)).length
      let offices2 :=
        s.offices.filter (fun o => !(keyMatches o.osmType o.osmId existing.osmType existing.osmId))
      (⟨.approved, flagId, some existing.osmType, some existing.osmId,
        deletedLinks, deletedOffices⟩,
        { s with flags := flags2, banned := banned2, links := links2, offices := offices2 })

/-- `rejectOfficeDeletionFlag` from `db.ts`: missing flag → `not_found`;
approved flag → `already_approved` with no writes; rejected flag →
`already_rejected` with no writes; pending flag → mark rejected with
`reviewed_at`, deleting nothing. -/
def rejectOfficeDeletionFlag (s : DbState) (flagId : Int) (now : Str) :
    ReviewFlagResult × DbState :=
  match getOfficeDeletionFlagStatus s flagId with
  | none => (⟨.notFound, flagId, none, none, 0, 0⟩, s)
  | some existing =>
    if existing.status = FlagStatus.approved then
      (⟨.alreadyApproved, flagId, some existing.osmType, some existing.osmId, 0, 0⟩, s)
    else if existing.status = FlagStatus.rejected then
      (⟨.alreadyRejected, flagId, some existing.osmType, some existing.osmId, 0, 0⟩, s)
    else
      let flags2 := s.flags.map (fun f =>
        if f.id = flagId then
          { f with status := FlagStatus.rejected, reviewedAt := some now }
        else f)
      (⟨.rejected, flagId, some existing.osmType, some existing.osmId, 0, 0⟩,
        { s with flags := flags2 })

/-- The two decisions accepted by the flag-decision route. -/
inductive FlagDecision
  | approve
  | reject
deriving DecidableEq, Repr

/-- The HTTP status chosen by the flag-decision route in `router.ts` after
the database call: `not_found` → 404, rejecting an already-approved flag →
409 Conflict, anything else → 200. -/
def flagDecisionHttpStatus (decision : FlagDecision) (outcome : ReviewOutcome) : Nat :=
  if outcome = ReviewOutcome.notFound then 404
  else if decision = FlagDecision.reject ∧ outcome = ReviewOutcome.alreadyApproved then 409
  else 200

/-- Decimal digits of a natural number, recursing on an explicit fuel so
concrete values reduce; empty when the fuel runs out or `n = 0`. -/
def natToStrGo : Nat → Nat → Str
  | 0, _ => []
  | _, 0 => []
  | fuel + 1, n =>
    natToStrGo fuel (n / 10) ++ [Char.ofNat ('0'.toNat + n % 10)]

/-- JavaScript `String(n)` for a non-negative integer. -/
def natToStr (n : Nat) : Str :=
  if n = 0 then ['0'] else natToStrGo (n + 1) n

/-- JavaScript `String(n)` for an integer. -/
def intToStr (n : Int) : Str :=
  if n < 0 then '-' :: natToStr n.natAbs else natToStr n.toNat

/-- Accumulate decimal digits, as `parseInt` does once digits start. -/
def digitsToNatAux : List Char → Nat → Nat
  | [], acc => acc
  | c :: cs, acc => digitsToNatAux cs (acc * 10 + (c.toNat - '0'.toNat))

/-- The digit run at the front of the string; `none` when there is none
(`parseInt` → `NaN`). -/
def jsParseIntDigits (s : Str) : Option Nat :=
  let ds := s.takeWhile Char.isDigit
  if ds = [] then none else some (digitsToNatAux ds 0)

/-- `Number.parseInt(s, 10)`: skip leading whitespace, read an optional
sign and then the longest digit run; `none` models `NaN`. -/
def jsParseInt (s : Str) : Option Int :=
  let t := s.dropWhile Char.isWhitespace
  match t with
  | '-' :: rest => (jsParseIntDigits rest).map (fun n => -(n : Int))
  | '+' :: rest => (jsParseIntDigits rest).map (fun n => (n : Int))
  | _ => (jsParseIntDigits t).map (fun n => (n : Int))

/-- The `refresh_state` key that stores the scheduled-refresh cursor. -/
def refreshCursorKey : Str := "center_cursor".toList

/-- `getRefreshCursor` from `db.ts`: read the stored value (defaulting to
"0"), parse it, and map non-numbers and negatives to 0. -/
def getRefreshCursor (s : DbState) : Int :=
  let raw := (s.refreshState.lookup refreshCursorKey).getD "0".toList
  match jsParseInt raw with
  | none => 0
  | some parsed => if parsed < 0 then 0 else parsed

/-- `setRefreshCursor` from `db.ts`: upsert the key with `String(cursor)`
(`ON CONFLICT(key) DO UPDATE` keeps the existing row in place). -/
def setRefreshCursor (s : DbState) (cursor : Int) : DbState :=
  { s with refreshState := assocSet s.refreshState refreshCursorKey (intToStr cursor) }

/-- `listCentersAfterCursor` from `db.ts`: active centers with `id >
cursor`, ordered by id ascending, limited. -/
def listCentersAfterCursor (s : DbState) (cursor : Int) (limit : Nat) : List CenterRow :=
  ((s.centers.filter (fun c => c.isActive && decide (cursor < c.id))).mergeSort
    (fun a b => decide (a.id ≤ b.id))).take limit

/-- The per-center work of the scheduled batch.  `refreshCenterOffices`
performs network and database effects and can throw; it is abstracted as a
state transformer returning `Except`, and every theorem about the
scheduler holds for all of them. -/
abbrev RefreshAction := CenterRow → DbState → Except Str DbState

/-- Result of one `runScheduledRefresh` invocation: the final state and
the centers the loop iterated over. -/
structure ScheduledRefreshRun where
  state : DbState
  attempted : List CenterRow
deriving Repr

/-- `runScheduledRefresh` from `refresh.ts`: read the cursor, load the next
batch of active centers; when the batch is empty reset the cursor to 0 and
stop; otherwise run `refreshCenterOffices` per center — an exception is
logged and the loop continues — and finally set the cursor to the id of
the last center of the batch. -/
def runScheduledRefresh (refreshOne : RefreshAction) (batchSize : Nat)
    (s : DbState) : ScheduledRefreshRun :=
  let cursor := getRefreshCursor s
  let centers := listCentersAfterCursor s cursor batchSize
  if h : centers = [] then ⟨setRefreshCursor s 0, []⟩
  else
    let s2 := centers.foldl
      (fun st center =>
        match refreshOne center st with
        | .ok st2 => st2
        | .error _ => st)
      s
    ⟨setRefreshCursor s2 (centers.getLast h).id, centers⟩

/-- The request surface `isAdminAuthorized` reads. -/
structure RequestModel where
  authorizationHeader : Option Str
deriving DecidableEq, Repr

/-- `constantTimeEqual` from `auth.ts`: length check, then an OR-fold of
the XORed character codes compared against zero. -/
def constantTimeEqual (a b : Str) : Bool :=
  if a.length ≠ b.length then false
  else
    decide (((a.zip b).foldl (fun result p => result ||| (p.1.toNat ^^^ p.2.toNat)) 0) = 0)

/-- `isAdminAuthorized` from `auth.ts`: a falsy (absent or empty)
`ADMIN_TOKEN` refuses immediately; otherwise require a `Bearer ` header,
trim the remainder, refuse when empty, and compare in constant time. -/
def isAdminAuthorized (request : RequestModel) (adminToken : Option Str) : Bool :=
  match adminToken with
  | none => false
  | some configuredToken =>
    if configuredToken = [] then false
    else
      match request.authorizationHeader with
      | none => false
      | some headerValue =>
        if !(("Bearer ".toList).isPrefixOf headerValue) then false
        else
          let providedToken := jsTrim (headerValue.drop "Bearer ".length)
          if providedToken = [] then false
          else constantTimeEqual providedToken configuredToken

/-- The admin gate every admin route of `router.ts` starts with: an
unauthorized request is answered 401 before any handler logic runs. -/
def adminRouteStatus (request : RequestModel) (adminToken : Option Str)
    (innerStatus : Nat) : Nat :=
  if isAdminAuthorized request adminToken then innerStatus else 401

/-- `clamp` from `utils.ts` on integers. -/
def clampInt (value lo hi : Int) : Int :=
  max lo (min hi value)

/-- What the offices route decides about the `limit` query parameter. -/
inductive OfficesLimitDecision
  | badRequest
  | okLimit (limit : Option Int)
deriving DecidableEq, Repr

/-- The `limit` handling of `GET /api/centers/{id}/offices` in `router.ts`:
an absent or blank parameter means no limit; a value `parseInt` cannot
turn into a number is a 400; any parsed integer is clamped into
`[1, 5000]`. -/
def parseOfficesLimit (limitRaw : Option Str) : OfficesLimitDecision :=
  match limitRaw with
  | none => .okLimit none
  | some raw =>
    if jsTrim raw = ([] : Str) then .okLimit none
    else
      match jsParseInt raw with
      | none => .badRequest
      | some requestedLimit => .okLimit (some (clampInt requestedLimit 1 5000))

/-- The HTTP status the route's `limit` validation produces (the rest of
the handler proceeds to a 200 payload for an existing center). -/
def officesRouteLimitStatus (limitRaw : Option Str) : Nat :=
  match parseOfficesLimit limitRaw with
  | .badRequest => 400
  | .okLimit _ => 200

/-- Modelled from the spec (§3, Company): `company_name_normalized` is the
name lowercased, whitespace-collapsed, diacritics stripped (the stripping
function is a parameter, the identity on ASCII), with corporate suffixes
and low-signal stopwords removed.  Stated only to compare the stored
normalization against it. -/
def companyNameNormalizedSpec (stripDiacritics : Str → Str) (value : Str) : Str :=
  let collapsed := collapseWs (toLowerStr (stripDiacritics (jsTrim value)))
  let tokens :=
    (collapsed.splitOn ' ').filter
      (fun token =>
        token ≠ [] ∧ token ∉ corporateSuffixes ∧ token ∉ lowSignalTokens)
  List.intercalate [' '] tokens

/-- Looking a key up after `assocSet` always yields the just-written value. -/
theorem lookup_assocSet {β : Type} (m : List (Str × β)) (k : Str) (v : β) :
    (assocSet m k v).lookup k = some v := by
  unfold assocSet
  by_cases hany : m.any (fun p => p.1 = k)
  · simp only [hany, if_true]
    induction m with
    | nil => simp at hany
    | cons p rest ih =>
      obtain ⟨p1, p2⟩ := p
      by_cases hp : p1 = k
      · subst hp
        rw [List.map_cons, if_pos (rfl : (p1, p2).1 = p1)]
        simp [List.lookup]
      · have hrest : rest.any (fun p => p.1 = k) = true := by
          have h2 := hany
          simp only [List.any_cons, Bool.or_eq_true, decide_eq_true_eq] at h2
          rcases h2 with h2 | h2
          · exact absurd h2 hp
          · exact h2
        have hk : (k == p1) = false :=
          beq_eq_false_iff_ne.mpr (fun hkk => hp hkk.symm)
        simp only [List.map_cons]
        rw [if_neg hp]
        simp only [List.lookup, hk]
        exact ih hrest
  · simp only [hany, if_false]
    induction m with
    | nil => simp [List.lookup]
    | cons p rest ih =>
      obtain ⟨p1, p2⟩ := p
      have hp : ¬ p1 = k := by
        intro hkk
        exact hany (by simp [List.any_cons, hkk])
      have hrest : ¬ rest.any (fun p => p.1 = k) = true := by
        intro hkk
        exact hany (by simp [List.any_cons, hkk])
      have hk : (k == p1) = false :=
        beq_eq_false_iff_ne.mpr (fun hkk => hp hkk.symm)
      simp only [List.cons_append, List.lookup, hk]
      exact ih hrest

/-- C9: when the `ADMIN_TOKEN` environment variable is absent or empty,
`isAdminAuthorized` returns false for every request, so every admin route
answers 401 regardless of the Authorization header. -/
theorem c9_missing_admin_token_denies_all (request : RequestModel)
    (adminToken : Option Str)
    (h : adminToken = none ∨ adminToken = some ([] : Str)) :
    isAdminAuthorized request adminToken = false ∧
      ∀ innerStatus : Nat, adminRouteStatus request adminToken innerStatus = 401 := by
  rcases h with h | h <;> subst h <;>
    simp [isAdminAuthorized, adminRouteStatus]

/-- Witness for C9 at a concrete request carrying a well-formed bearer
header and an empty configured token. -/
theorem c9_missing_admin_token_denies_all_witness :
    isAdminAuthorized ⟨some "Bearer secret".toList⟩ (some ([] : Str)) = false ∧
      ∀ innerStatus : Nat,
        adminRouteStatus ⟨some "Bearer secret".toList⟩ (some ([] : Str)) innerStatus = 401 :=
  c9_missing_admin_token_denies_all ⟨some "Bearer secret".toList⟩ (some [])
    (Or.inr rfl)

/-- C3 as written is false: a present `limit` equal to 0 is parsed by
`parseInt`, found finite, and clamped to 1 — the route answers 200, not
400 (similarly for negatives); only an unparsable limit is answered 400. -/
theorem c3_limit_zero_not_rejected :
    officesRouteLimitStatus (some "0".toList) = 200 ∧
      parseOfficesLimit (some "0".toList) = OfficesLimitDecision.okLimit (some 1) ∧
      officesRouteLimitStatus (some "-3".toList) = 200 ∧
      parseOfficesLimit (some "-3".toList) = OfficesLimitDecision.okLimit (some 1) ∧
      (200 : Nat) ≠ 400 := by
  decide

/-- C3 amended: a present, non-blank `limit` that `parseInt` cannot parse
is answered 400; a parsed limit ≤ 0 is clamped to 1 and the request
proceeds with status 200. -/
theorem c3_limit_validation (raw : Str) :
    (jsTrim raw ≠ ([] : Str) → jsParseInt raw = none →
      officesRouteLimitStatus (some raw) = 400) ∧
    (∀ n : Int, jsTrim raw ≠ ([] : Str) → jsParseInt raw = some n → n ≤ 0 →
      parseOfficesLimit (some raw) = OfficesLimitDecision.okLimit (some 1) ∧
        officesRouteLimitStatus (some raw) = 200) := by
  constructor
  · intro hblank hnone
    simp [officesRouteLimitStatus, parseOfficesLimit, hblank, hnone]
  · intro n hblank hsome hle
    have hclamp : clampInt n 1 5000 = 1 := by
      unfold clampInt
      omega
    constructor
    · simp [parseOfficesLimit, hblank, hsome, hclamp]
    · simp [officesRouteLimitStatus, parseOfficesLimit, hblank, hsome]

/-- Witness for the amended C3 at the concrete limits `"zz"` and `"-7"`. -/
theorem c3_limit_validation_witness :
    (officesRouteLimitStatus (some "zz".toList) = 400) ∧
      (parseOfficesLimit (some "-7".toList) = OfficesLimitDecision.okLimit (some 1) ∧
        officesRouteLimitStatus (some "-7".toList) = 200) :=
  ⟨(c3_limit_validation "zz".toList).1 (by decide) (by decide),
    (c3_limit_validation "-7".toList).2 (-7) (by decide) (by decide) (by decide)⟩

/-- C7: rejecting a flag that is already approved answers
`already_approved` with HTTP 409 and leaves the whole state untouched;
rejecting a pending flag marks it rejected with `reviewed_at` set and
deletes no links, offices or bans. -/
theorem c7_reject_decision (s : DbState) (flagId : Int) (now : Str) (f : FlagRow)
    (hfind : getOfficeDeletionFlagStatus s flagId = some f) :
    (f.status = FlagStatus.approved →
      rejectOfficeDeletionFlag s flagId now =
        (⟨.alreadyApproved, flagId, some f.osmType, some f.osmId, 0, 0⟩, s) ∧
      flagDecisionHttpStatus FlagDecision.reject ReviewOutcome.alreadyApproved = 409) ∧
    (f.status = FlagStatus.pending →
      (rejectOfficeDeletionFlag s flagId now).1.outcome = ReviewOutcome.rejected ∧
      (rejectOfficeDeletionFlag s flagId now).1.deletedLinks = 0 ∧
      (rejectOfficeDeletionFlag s flagId now).1.deletedOffices = 0 ∧
      (rejectOfficeDeletionFlag s flagId now).2.links = s.links ∧
      (rejectOfficeDeletionFlag s flagId now).2.offices = s.offices ∧
      (rejectOfficeDeletionFlag s flagId now).2.banned = s.banned ∧
      (rejectOfficeDeletionFlag s flagId now).2.centers = s.centers ∧
      (∀ g ∈ (rejectOfficeDeletionFlag s flagId now).2.flags,
        g.id = flagId → g.status = FlagStatus.rejected ∧ g.reviewedAt = some now) ∧
      (∀ g ∈ (rejectOfficeDeletionFlag s flagId now).2.flags,
        g.id ≠ flagId → g ∈ s.flags)) := by
  constructor
  · intro happroved
    constructor
    · simp [rejectOfficeDeletionFlag, hfind, happroved]
    · simp [flagDecisionHttpStatus]
  · intro hpending
    have hnotapp : ¬ f.status = FlagStatus.approved := by
      rw [hpending]; intro hc; cases hc
    have hnotrej : ¬ f.status = FlagStatus.rejected := by
      rw [hpending]; intro hc; cases hc
    simp only [rejectOfficeDeletionFlag, hfind, hnotapp, hnotrej, if_false]
    refine ⟨by trivial, by trivial, by trivial, by trivial, by trivial, by trivial,
      by trivial, ?_, ?_⟩
    · intro g hg hid
      rcases List.mem_map.mp hg with ⟨orig, _, heq⟩
      by_cases horig : orig.id = flagId
      · rw [if_pos horig] at heq
        subst heq
        exact ⟨rfl, rfl⟩
      · rw [if_neg horig] at heq
        subst heq
        exact absurd hid horig
    · intro g hg hid
      rcases List.mem_map.mp hg with ⟨orig, hmem, heq⟩
      by_cases horig : orig.id = flagId
      · rw [if_pos horig] at heq
        subst heq
        exact absurd horig hid
      · rw [if_neg horig] at heq
        subst heq
        exact hmem

/-- Witness for C7 on a one-flag state, exercised in the approved case. -/
theorem c7_reject_decision_witness :
    rejectOfficeDeletionFlag
        ⟨[], [], [], [], [⟨7, none, OsmType.node, 3, none, FlagStatus.approved, "t".toList, none⟩], []⟩
        7 "now".toList =
      (⟨.alreadyApproved, 7, some OsmType.node, some 3, 0, 0⟩,
        ⟨[], [], [], [], [⟨7, none, OsmType.node, 3, none, FlagStatus.approved, "t".toList, none⟩], []⟩) ∧
      flagDecisionHttpStatus FlagDecision.reject ReviewOutcome.alreadyApproved = 409 :=
  (c7_reject_decision
    ⟨[], [], [], [], [⟨7, none, OsmType.node, 3, none, FlagStatus.approved, "t".toList, none⟩], []⟩
    7 "now".toList
    ⟨7, none, OsmType.node, 3, none, FlagStatus.approved, "t".toList, none⟩
    (by decide)).1 rfl

/-- C10: approving a flag whose status is `rejected` performs the full
approval effect — the flag becomes approved with `reviewed_at` set, a
`banned_offices` row for its pair is inserted or updated, and every
`center_office` row and `offices` row for the pair is deleted — while a
flag already approved short-circuits with the state unchanged. -/
theorem c10_approve_rejected_flag (s : DbState) (flagId : Int) (now : Str) (f : FlagRow)
    (hfind : getOfficeDeletionFlagStatus s flagId = some f) :
    (f.status = FlagStatus.rejected →
      (approveOfficeDeletionFlag s flagId now).1.outcome = ReviewOutcome.approved ∧
      (∀ g ∈ (approveOfficeDeletionFlag s flagId now).2.flags,
        g.id = flagId → g.status = FlagStatus.approved ∧ g.reviewedAt = some now) ∧
      (∃ b ∈ (approveOfficeDeletionFlag s flagId now).2.banned,
        b.osmType = f.osmType ∧ b.osmId = f.osmId ∧
          b.approvedFlagId = some flagId ∧ b.approvedAt = now) ∧
      (∀ l ∈ (approveOfficeDeletionFlag s flagId now).2.links,
        ¬ (l.osmType = f.osmType ∧ l.osmId = f.osmId)) ∧
      (∀ o ∈ (approveOfficeDeletionFlag s flagId now).2.offices,
        ¬ (o.osmType = f.osmType ∧ o.osmId = f.osmId))) ∧
    (f.status = FlagStatus.approved →
      approveOfficeDeletionFlag s flagId now =
        (⟨.alreadyApproved, flagId, some f.osmType, some f.osmId, 0, 0⟩, s)) := by
  constructor
  · intro hrejected
    have hnotapp : ¬ f.status = FlagStatus.approved := by
      rw [hrejected]; intro hc; cases hc
    simp only [approveOfficeDeletionFlag, hfind, hnotapp, if_false]
    refine ⟨by trivial, ?_, ?_, ?_, ?_⟩
    · intro g hg hid
      rcases List.mem_map.mp hg with ⟨orig, _, heq⟩
      by_cases horig : orig.id = flagId
      · rw [if_pos horig] at heq
        subst heq
        exact ⟨rfl, rfl⟩
      · rw [if_neg horig] at heq
        subst heq
        exact absurd hid horig
    · by_cases hexists :
        s.banned.any (fun b => keyMatches b.osmType b.osmId f.osmType f.osmId) = true
      · rcases List.any_eq_true.mp hexists with ⟨b0, hb0, hb0key⟩
        have hkey := hb0key
        simp only [keyMatches, Bool.and_eq_true, beq_iff_eq] at hkey
        refine ⟨{ b0 with approvedFlagId := some flagId, approvedAt := now }, ?_, ?_⟩
        · rw [if_pos hexists]
          have hmm := List.mem_map_of_mem
            (fun b => if keyMatches b.osmType b.osmId f.osmType f.osmId then
              { b with approvedFlagId := some flagId, approvedAt := now } else b) hb0
          simp only [hb0key, if_true] at hmm
          exact hmm
        · exact ⟨hkey.1, hkey.2, rfl, rfl⟩
      · refine ⟨⟨f.osmType, f.osmId, some flagId, now⟩, ?_, rfl, rfl, rfl, rfl⟩
        rw [if_neg hexists]
        exact List.mem_append_right _ (by simp)
    · intro l hl
      have hpred := List.of_mem_filter hl
      intro hc
      have : keyMatches l.osmType l.osmId f.osmType f.osmId = true := by
        simp [keyMatches, hc.1, hc.2]
      rw [this] at hpred
      cases hpred
    · intro o ho
      have hpred := List.of_mem_filter ho
      intro hc
      have : keyMatches o.osmType o.osmId f.osmType f.osmId = true := by
        simp [keyMatches, hc.1, hc.2]
      rw [this] at hpred
      cases hpred
  · intro happroved
    simp [approveOfficeDeletionFlag, hfind, happroved]

/-- Witness for C10 on a one-flag state holding a rejected flag, one link,
one office and no prior ban for the pair. -/
theorem c10_approve_rejected_flag_witness :
    ((approveOfficeDeletionFlag
        ⟨[], [⟨OsmType.node, 3, some "X".toList, 0, 0, false⟩],
          [⟨1, OsmType.node, 3, 5, "t".toList⟩], [],
          [⟨7, none, OsmType.node, 3, none, FlagStatus.rejected, "t".toList, none⟩], []⟩
        7 "now".toList).1.outcome = ReviewOutcome.approved) ∧
      (∃ b ∈ (approveOfficeDeletionFlag
        ⟨[], [⟨OsmType.node, 3, some "X".toList, 0, 0, false⟩],
          [⟨1, OsmType.node, 3, 5, "t".toList⟩], [],
          [⟨7, none, OsmType.node, 3, none, FlagStatus.rejected, "t".toList, none⟩], []⟩
        7 "now".toList).2.banned,
        b.osmType = OsmType.node ∧ b.osmId = 3 ∧
          b.approvedFlagId = some 7 ∧ b.approvedAt = "now".toList) := by
  have h := c10_approve_rejected_flag
    ⟨[], [⟨OsmType.node, 3, some "X".toList, 0, 0, false⟩],
      [⟨1, OsmType.node, 3, 5, "t".toList⟩], [],
      [⟨7, none, OsmType.node, 3, none, FlagStatus.rejected, "t".toList, none⟩], []⟩
    7 "now".toList
    ⟨7, none, OsmType.node, 3, none, FlagStatus.rejected, "t".toList, none⟩
    (by decide)
  exact ⟨(h.1 rfl).1, (h.1 rfl).2.2.1⟩

/-- C5: when the active-centers query after the cursor returns no rows,
the scheduled refresh resets the cursor to 0 and refreshes nothing;
otherwise — failures included, since a throwing center is logged and the
loop continues — it attempts exactly the batch and stores the id of the
batch's last center as the new cursor.  The statement quantifies over the
per-center refresh action. -/
theorem c5_scheduled_refresh_cursor (refreshOne : RefreshAction) (batchSize : Nat)
    (s : DbState) :
    (listCentersAfterCursor s (getRefreshCursor s) batchSize = [] →
      (runScheduledRefresh refreshOne batchSize s).attempted = [] ∧
      (runScheduledRefresh refreshOne batchSize s).state = setRefreshCursor s 0 ∧
      (runScheduledRefresh refreshOne batchSize s).state.refreshState.lookup refreshCursorKey =
        some "0".toList ∧
      (runScheduledRefresh refreshOne batchSize s).state.centers = s.centers ∧
      (runScheduledRefresh refreshOne batchSize s).state.offices = s.offices ∧
      (runScheduledRefresh refreshOne batchSize s).state.links = s.links ∧
      (runScheduledRefresh refreshOne batchSize s).state.banned = s.banned ∧
      (runScheduledRefresh refreshOne batchSize s).state.flags = s.flags) ∧
    (∀ h : listCentersAfterCursor s (getRefreshCursor s) batchSize ≠ [],
      (runScheduledRefresh refreshOne batchSize s).attempted =
        listCentersAfterCursor s (getRefreshCursor s) batchSize ∧
      (runScheduledRefresh refreshOne batchSize s).state.refreshState.lookup refreshCursorKey =
        some (intToStr ((listCentersAfterCursor s (getRefreshCursor s) batchSize).getLast h).id)) := by
  constructor
  · intro hempty
    have hrun : runScheduledRefresh refreshOne batchSize s = ⟨setRefreshCursor s 0, []⟩ := by
      unfold runScheduledRefresh
      rw [dif_pos hempty]
    refine ⟨by rw [hrun], by rw [hrun], ?_, by rw [hrun]; simp [setRefreshCursor],
      by rw [hrun]; simp [setRefreshCursor], by rw [hrun]; simp [setRefreshCursor],
      by rw [hrun]; simp [setRefreshCursor], by rw [hrun]; simp [setRefreshCursor]⟩
    rw [hrun]
    show (setRefreshCursor s 0).refreshState.lookup refreshCursorKey = some "0".toList
    unfold setRefreshCursor
    exact lookup_assocSet s.refreshState refreshCursorKey (intToStr 0)
  · intro hne
    have hrun : runScheduledRefresh refreshOne batchSize s =
        ⟨setRefreshCursor
          ((listCentersAfterCursor s (getRefreshCursor s) batchSize).foldl
            (fun st center =>
              match refreshOne center st with
              | .ok st2 => st2
              | .error _ => st)
            s)
          ((listCentersAfterCursor s (getRefreshCursor s) batchSize).getLast hne).id,
          listCentersAfterCursor s (getRefreshCursor s) batchSize⟩ := by
      unfold runScheduledRefresh
      rw [dif_neg hne]
    refine ⟨by rw [hrun], ?_⟩
    rw [hrun]
    exact lookup_assocSet _ refreshCursorKey _

unseal List.merge List.mergeSort in
/-- Witness for C5: a two-center state whose cursor is 0 and whose batch of
size 10 is both centers; the stored cursor becomes the last id, "2". -/
theorem c5_scheduled_refresh_cursor_witness :
    (runScheduledRefresh (fun _ st => Except.ok st) 10
        ⟨[⟨1, "a".toList, "A".toList, 0, 0, true⟩, ⟨2, "b".toList, "B".toList, 0, 0, true⟩],
          [], [], [], [], []⟩).attempted =
      [⟨1, "a".toList, "A".toList, 0, 0, true⟩, ⟨2, "b".toList, "B".toList, 0, 0, true⟩] ∧
    (runScheduledRefresh (fun _ st => Except.ok st) 10
        ⟨[⟨1, "a".toList, "A".toList, 0, 0, true⟩, ⟨2, "b".toList, "B".toList, 0, 0, true⟩],
          [], [], [], [], []⟩).state.refreshState.lookup refreshCursorKey =
      some "2".toList := by
  have h := (c5_scheduled_refresh_cursor (fun _ st => Except.ok st) 10
    ⟨[⟨1, "a".toList, "A".toList, 0, 0, true⟩, ⟨2, "b".toList, "B".toList, 0, 0, true⟩],
      [], [], [], [], []⟩).2 (by decide)
  exact ⟨by rw [h.1]; decide, by rw [h.2]; decide⟩

/-- Members after a `companiesAssocSet` are the newly written pair or
members of the original map. -/
theorem mem_companiesAssocSet (m : List (Str × CsvCompanyRow)) (k : Str)
    (v : CsvCompanyRow) :
    ∀ p ∈ companiesAssocSet m k v, p ∈ m ∨ p = (k, v) := by
  intro p hp
  unfold companiesAssocSet at hp
  by_cases hany : m.any (fun q => q.1 = k)
  · rw [if_pos hany] at hp
    rcases List.mem_map.mp hp with ⟨orig, hmem, heq⟩
    by_cases ho : orig.1 = k
    · right
      rw [if_pos ho] at heq
      exact heq.symm
    · left
      rw [if_neg ho] at heq
      rw [← heq]
      exact hmem
  · rw [if_neg hany] at hp
    rcases List.mem_append.mp hp with h | h
    · left
      exact h
    · right
      simpa using h

/-- Every row accumulated by the `parseCompaniesCsv` loop stores as
`companyNameNormalized` exactly `normalizeCompanyName` of its stored
company name. -/
theorem parseCompanyRows_normalized (headerIndex : List (Str × Nat))
    (items : List (Nat × List Str))
    (acc : List (Str × CsvCompanyRow) × List CsvValidationIssue)
    (hacc : ∀ p ∈ acc.1, p.2.companyNameNormalized = normalizeCompanyName p.2.companyName) :
    ∀ p ∈ (items.foldl (parseCompanyRowStep headerIndex) acc).1,
      p.2.companyNameNormalized = normalizeCompanyName p.2.companyName := by
  induction items generalizing acc with
  | nil => exact hacc
  | cons item rest ih =>
    rw [List.foldl_cons]
    apply ih
    intro p hp
    simp only [parseCompanyRowStep] at hp
    split at hp
    · exact hacc p hp
    · split at hp
      · exact hacc p hp
      · rcases mem_companiesAssocSet _ _ _ p hp with h | h
        · exact hacc p h
        · rw [h]

/-- C4 amended: for every company CSV row, the stored
`company_name_normalized` is exactly the company name trimmed, lowercased
and whitespace-collapsed — no diacritic stripping and no removal of
corporate suffixes or stopwords takes place at storage time. -/
theorem c4_stored_normalization (csvText : Str)
    (rows : List CsvCompanyRow) (issues : List CsvValidationIssue)
    (htop : (parseCompaniesCsv csvText).toOption = some (rows, issues)) :
    ∀ row ∈ rows, row.companyNameNormalized = normalizeCompanyName row.companyName := by
  intro row hrow
  have h : parseCompaniesCsv csvText = .ok (rows, issues) := by
    cases hpc : parseCompaniesCsv csvText with
    | error e =>
      rw [hpc] at htop
      cases htop
    | ok val =>
      rw [hpc] at htop
      simp [Except.toOption] at htop
      rw [htop]
  unfold parseCompaniesCsv at h
  cases hp : parseCsvRows csvText with
  | error e =>
    rw [hp] at h
    simp only [Bind.bind, Except.bind] at h
    cases h
  | ok parsedRows =>
    rw [hp] at h
    simp only [Bind.bind, Except.bind] at h
    split at h
    · cases h
    · split at h
      · cases h
      · injection h with hpair
        have hrows : rows =
            ((List.enumFrom 1 (parsedRows.drop 1)).foldl
              (parseCompanyRowStep (buildHeaderIndex ((parsedRows.headD []).map normalizeHeader)))
              ([], [])).1.map (fun p => p.2) := by
          have := congrArg Prod.fst hpair
          exact this.symm
        rw [hrows] at hrow
        rcases List.mem_map.mp hrow with ⟨p, hpmem, hpeq⟩
        rw [← hpeq]
        exact parseCompanyRows_normalized _ _ _ (by intro q hq; cases hq) p hpmem

unseal parseCsvRowsAux in
/-- Witness for the amended C4 at a concrete one-row CSV. -/
theorem c4_stored_normalization_witness :
    (parseCompaniesCsv "company_name\nAcme  Inc".toList).toOption =
      some ([⟨"Acme  Inc".toList, "acme inc".toList, none⟩], []) ∧
    "acme inc".toList = normalizeCompanyName "Acme  Inc".toList :=
  ⟨by decide,
    c4_stored_normalization "company_name\nAcme  Inc".toList
      [⟨"Acme  Inc".toList, "acme inc".toList, none⟩] [] (by decide)
      ⟨"Acme  Inc".toList, "acme inc".toList, none⟩ (by decide)⟩

unseal parseCsvRowsAux in
/-- C4 as written is false: the claim requires diacritics stripped and
corporate suffixes removed, but the stored normalization of "Acme Inc" is
"acme inc" — the suffix survives — while the spec's normalization yields
"acme". -/
theorem c4_counterexample :
    (parseCompaniesCsv "company_name\nAcme Inc".toList).toOption =
      some ([⟨"Acme Inc".toList, "acme inc".toList, none⟩], []) ∧
    companyNameNormalizedSpec id "Acme Inc".toList = "acme".toList ∧
    ("acme inc".toList : Str) ≠ "acme".toList := by
  refine ⟨by decide, by decide, by decide⟩

/-- C8: whenever either normalized string contains the other as a
whole-token phrase and the shorter string has length ≥ 4, the similarity
computed by the matcher is at least 0.91 = `mkRat 91 100`, whatever the
token lists derived from the two strings are. -/
theorem c8_phrase_containment_boost (a b : Str)
    (hphrase : containsPhrase a b = true ∨ containsPhrase b a = true)
    (hlen : 4 ≤ min a.length b.length) :
    mkRat 91 100 ≤ computeSimilarity a (splitTokens a) b (splitTokens b) := by
  have hs1 : ∀ ta tb, mkRat 91 100 ≤ simAfterPhraseBoost a ta b tb := by
    intro ta tb
    unfold simAfterPhraseBoost
    rw [if_pos ⟨by rcases hphrase with h | h <;> simp [h], hlen⟩]
    exact le_max_right _ _
  have hs2 : ∀ ta tb, mkRat 91 100 ≤ simAfterStrongBoost a ta b tb := by
    intro ta tb
    unfold simAfterStrongBoost
    by_cases hcond : simContainment ta tb = 1 ∧ 2 ≤ min ta.length tb.length ∧
        mkRat 8 10 ≤ editSimilarity a b
    · rw [if_pos hcond]
      exact le_trans (hs1 ta tb) (le_max_left _ _)
    · rw [if_neg hcond]
      exact hs1 ta tb
  unfold computeSimilarity
  by_cases heq : a = b
  · rw [if_pos heq]
    decide
  · rw [if_neg heq]
    rcases hta : splitTokens a with _ | ⟨x, xs⟩
    · exact hs2 [] (splitTokens b)
    · rcases hxs : xs with _ | ⟨x2, xs2⟩
      · rcases htb : splitTokens b with _ | ⟨y, ys⟩
        · exact hs2 [x] []
        · rcases hys : ys with _ | ⟨y2, ys2⟩
          · by_cases hxy : x = y
            · exact le_trans (by decide) (le_of_eq (if_pos hxy).symm)
            · exact le_trans (hs2 [x] [y]) (le_of_eq (if_neg hxy).symm)
          · exact hs2 [x] (y :: y2 :: ys2)
      · exact hs2 (x :: x2 :: xs2) (splitTokens b)

/-- Witness for C8: "alpha beta" contains "alpha" as a whole-token phrase
and the shorter string has length 5. -/
theorem c8_phrase_containment_boost_witness :
    mkRat 91 100 ≤
      computeSimilarity "alpha beta".toList (splitTokens "alpha beta".toList)
        "alpha".toList (splitTokens "alpha".toList) :=
  c8_phrase_containment_boost "alpha beta".toList "alpha".toList
    (Or.inl (by decide)) (by decide)

/-- The `bestMatch` invariant: anything held scores at least the
acceptance threshold. -/
def bestMatchOk (best : Option BestMatch) : Prop :=
  ∀ b, best = some b → minAcceptScore ≤ b.score

/-- `considerCandidate` preserves the invariant when the challenger meets
the threshold. -/
theorem bestMatchOk_considerCandidate (variants : List CompanyVariant)
    (challenger : CompanyVariant) (m : BestMatch) (best : Option BestMatch)
    (hm : minAcceptScore ≤ m.score) (hbest : bestMatchOk best) :
    bestMatchOk (considerCandidate variants challenger m best) := by
  intro b hb
  cases hbb : best with
  | none =>
    rw [hbb] at hb
    simp only [considerCandidate, Option.some.injEq] at hb
    subst hb
    exact hm
  | some b0 =>
    rw [hbb] at hb
    simp only [considerCandidate] at hb
    split at hb
    · simp only [Option.some.injEq] at hb
      subst hb
      exact hm
    · split at hb
      · split at hb
        · simp only [Option.some.injEq] at hb
          subst hb
          exact hbest b0 hbb
        · split at hb
          · simp only [Option.some.injEq] at hb
            subst hb
            exact hm
          · simp only [Option.some.injEq] at hb
            subst hb
            exact hbest b0 hbb
      · simp only [Option.some.injEq] at hb
        subst hb
        exact hbest b0 hbb

/-- The exact-index loop preserves the invariant (its candidates score 1). -/
theorem bestMatchOk_processExactIndexes (variants : List CompanyVariant)
    (candidateFrom : MatchedField) (indexes : List Nat) (best : Option BestMatch)
    (hbest : bestMatchOk best) :
    bestMatchOk (processExactIndexes variants candidateFrom indexes best) := by
  unfold processExactIndexes
  induction indexes generalizing best with
  | nil => exact hbest
  | cons i rest ih =>
    rw [List.foldl_cons]
    apply ih
    cases hv : variants.get? i with
    | none =>
      simp only [hv]
      exact hbest
    | some variant =>
      simp only [hv]
      exact bestMatchOk_considerCandidate variants variant _ best
        (by show minAcceptScore ≤ (1 : ℚ); decide) hbest

/-- The shortlist loop preserves the invariant: candidates below the
threshold are skipped. -/
theorem bestMatchOk_processShortlist (variants : List CompanyVariant)
    (officeNormalized : Str) (officeTokens : List Str) (candidateFrom : MatchedField)
    (indexes : List Nat) (best : Option BestMatch) (hbest : bestMatchOk best) :
    bestMatchOk (processShortlist variants officeNormalized officeTokens
      candidateFrom indexes best) := by
  unfold processShortlist
  induction indexes generalizing best with
  | nil => exact hbest
  | cons i rest ih =>
    rw [List.foldl_cons]
    apply ih
    cases hv : variants.get? i with
    | none =>
      simp only [hv]
      exact hbest
    | some variant =>
      simp only [hv]
      by_cases hscore : computeSimilarity officeNormalized officeTokens
          variant.normalizedName variant.tokens < minAcceptScore
      · rw [if_pos hscore]
        exact hbest
      · rw [if_neg hscore]
        exact bestMatchOk_considerCandidate variants variant _ best
          (le_of_not_lt hscore) hbest

/-- Processing one candidate string preserves the invariant. -/
theorem bestMatchOk_processCandidate (normText : Str → Str)
    (companyIndex : CompanyMatchIndex) (best : Option BestMatch)
    (candidate : Str × MatchedField) (hbest : bestMatchOk best) :
    bestMatchOk (processCandidate normText companyIndex best candidate) := by
  unfold processCandidate
  by_cases hnorm : normText candidate.1 = ([] : Str)
  · rw [if_pos hnorm]
    exact hbest
  · rw [if_neg hnorm]
    by_cases htok : splitTokens (normText candidate.1) = ([] : List Str)
    · rw [if_pos htok]
      exact hbest
    · rw [if_neg htok]
      exact bestMatchOk_processShortlist _ _ _ _ _ _
        (bestMatchOk_processExactIndexes _ _ _ _ hbest)

/-- Any result of `matchOfficeToCompany` scores at least
`MIN_ACCEPT_SCORE`. -/
theorem matchOfficeToCompany_score_ge (normText : Str → Str) (office : Office)
    (companyIndex : CompanyMatchIndex) (r : CompanyMatchResult)
    (h : matchOfficeToCompany normText office companyIndex = some r) :
    minAcceptScore ≤ r.score := by
  unfold matchOfficeToCompany at h
  by_cases hv : companyIndex.variants = []
  · rw [if_pos hv] at h
    cases h
  · rw [if_neg hv] at h
    have hfold : bestMatchOk ((uniqueOfficeNames normText office).foldl
        (processCandidate normText companyIndex) none) := by
      have hstep : ∀ (cands : List (Str × MatchedField)) (best : Option BestMatch),
          bestMatchOk best →
          bestMatchOk (cands.foldl (processCandidate normText companyIndex) best) := by
        intro cands
        induction cands with
        | nil => intro best hbest; exact hbest
        | cons c rest ih =>
          intro best hbest
          rw [List.foldl_cons]
          exact ih _ (bestMatchOk_processCandidate normText companyIndex best c hbest)
      exact hstep _ none (by intro b hb; cases hb)
    cases hres : (uniqueOfficeNames normText office).foldl
        (processCandidate normText companyIndex) none with
    | none =>
      rw [hres] at h
      cases h
    | some b =>
      rw [hres] at h
      injection h with hh
      rw [← hh]
      exact hfold b hres

/-- C2: every office accepted by `filterOfficesWithKnownCompanies` matched
some company variant: the matcher returned a result, and any result it
returns scores at least `MIN_ACCEPT_SCORE = 0.86 = mkRat 86 100`.  The
statement quantifies over the normalization function and the index. -/
theorem c2_accepted_offices_meet_threshold (normText : Str → Str)
    (offices : List Office) (companyIndex : CompanyMatchIndex) (office : Office)
    (h : office ∈ (filterOfficesWithKnownCompanies normText offices companyIndex).matchedOffices) :
    ∃ r, matchOfficeToCompany normText office companyIndex = some r ∧
      mkRat 86 100 ≤ r.score := by
  unfold filterOfficesWithKnownCompanies at h
  by_cases hempty : offices = []
  · rw [if_pos hempty] at h
    cases h
  · rw [if_neg hempty] at h
    have hsome := List.of_mem_filter h
    cases hr : matchOfficeToCompany normText office companyIndex with
    | none =>
      rw [hr] at hsome
      cases hsome
    | some r =>
      exact ⟨r, rfl, matchOfficeToCompany_score_ge normText office companyIndex r hr⟩

/-- Witness for C2: a one-company index ("Google") accepting the office
named "Google LLC" (the suffix is stripped by normalization). -/
theorem c2_accepted_offices_meet_threshold_witness :
    ∃ r, matchOfficeToCompany normalizeCompanyTextAscii
        ⟨OsmType.node, 1, some "Google LLC".toList, none, none, none, none, 0, 0, false⟩
        (buildCompanyMatchIndex normalizeCompanyTextAscii [⟨5, "Google".toList, none⟩]) =
          some r ∧
      mkRat 86 100 ≤ r.score :=
  c2_accepted_offices_meet_threshold normalizeCompanyTextAscii
    [⟨OsmType.node, 1, some "Google LLC".toList, none, none, none, none, 0, 0, false⟩]
    (buildCompanyMatchIndex normalizeCompanyTextAscii [⟨5, "Google".toList, none⟩])
    ⟨OsmType.node, 1, some "Google LLC".toList, none, none, none, none, 0, 0, false⟩
    (by decide)

/-- C6: with no `maxOffices` the cap is the identity; when the list fits
the cap it is also the identity; when it exceeds the cap the result is
exactly the first `m` entries of the list sorted by distance to the
center ascending — it has length `m`, is sorted by distance, and every
kept office is at most as far as every dropped one — and consequently the
refresh pipeline upserts at most `m` links. -/
theorem c6_cap_keeps_nearest (hav : HaversineFn) (center : CenterRow)
    (offices : List Office) (m : Nat) :
    capOfficesByLimit hav center offices none = offices ∧
    (offices.length ≤ m → capOfficesByLimit hav center offices (some m) = offices) ∧
    (m < offices.length →
      capOfficesByLimit hav center offices (some m) =
        (offices.mergeSort (fun left right =>
          decide (hav center.lat center.lon left.lat left.lon ≤
            hav center.lat center.lon right.lat right.lon))).take m ∧
      (capOfficesByLimit hav center offices (some m)).length = m ∧
      List.Sorted (fun left right =>
          hav center.lat center.lon left.lat left.lon ≤
            hav center.lat center.lon right.lat right.lon)
        (capOfficesByLimit hav center offices (some m)) ∧
      (offices.mergeSort (fun left right =>
        decide (hav center.lat center.lon left.lat left.lon ≤
          hav center.lat center.lon right.lat right.lon))).Perm offices ∧
      (∀ x ∈ capOfficesByLimit hav center offices (some m),
        ∀ y ∈ (offices.mergeSort (fun left right =>
          decide (hav center.lat center.lon left.lat left.lon ≤
            hav center.lat center.lon right.lat right.lon))).drop m,
          hav center.lat center.lon x.lat x.lon ≤
            hav center.lat center.lon y.lat y.lon)) ∧
    (∀ (normText : Str → Str) (companyIndex : CompanyMatchIndex)
        (bannedKeys : List (OsmType × Int)) (seenAt : Str),
      (refreshCenterPipeline normText hav center offices (some m) companyIndex
        bannedKeys seenAt).links.length ≤ m) := by
  have htrans : ∀ a b c : Office,
      (fun left right => decide (hav center.lat center.lon left.lat left.lon ≤
        hav center.lat center.lon right.lat right.lon)) a b = true →
      (fun left right => decide (hav center.lat center.lon left.lat left.lon ≤
        hav center.lat center.lon right.lat right.lon)) b c = true →
      (fun left right => decide (hav center.lat center.lon left.lat left.lon ≤
        hav center.lat center.lon right.lat right.lon)) a c = true := by
    intro a b c hab hbc
    simp only [decide_eq_true_eq] at hab hbc ⊢
    exact le_trans hab hbc
  have htotal : ∀ a b : Office,
      ((fun left right => decide (hav center.lat center.lon left.lat left.lon ≤
        hav center.lat center.lon right.lat right.lon)) a b ||
       (fun left right => decide (hav center.lat center.lon left.lat left.lon ≤
        hav center.lat center.lon right.lat right.lon)) b a) = true := by
    intro a b
    by_cases h : hav center.lat center.lon a.lat a.lon ≤
        hav center.lat center.lon b.lat b.lon
    · simp [h]
    · simp [le_of_not_le h]
  have hpairwise := List.sorted_mergeSort htrans htotal offices
  have hcap_len : (capOfficesByLimit hav center offices (some m)).length ≤ m := by
    simp only [capOfficesByLimit]
    by_cases hle : offices.length ≤ m
    · rw [if_pos hle]
      exact hle
    · rw [if_neg hle]
      rw [List.length_take, List.length_mergeSort]
      omega
  refine ⟨rfl, ?_, ?_, ?_⟩
  · intro hle
    simp only [capOfficesByLimit]
    rw [if_pos hle]
  · intro hlt
    have hne : ¬ offices.length ≤ m := by omega
    have hcap : capOfficesByLimit hav center offices (some m) =
        (offices.mergeSort (fun left right =>
          decide (hav center.lat center.lon left.lat left.lon ≤
            hav center.lat center.lon right.lat right.lon))).take m := by
      simp only [capOfficesByLimit]
      rw [if_neg hne]
    refine ⟨hcap, ?_, ?_, List.mergeSort_perm offices _, ?_⟩
    · rw [hcap, List.length_take, List.length_mergeSort]
      omega
    · rw [hcap]
      have hsub := List.Pairwise.sublist (List.take_sublist m _) hpairwise
      exact hsub.imp (fun h => by simpa using h)
    · intro x hx y hy
      rw [hcap] at hx
      have hsplit := hpairwise
      rw [← List.take_append_drop m (offices.mergeSort _)] at hsplit
      have := (List.pairwise_append.mp hsplit).2.2 x hx y hy
      simpa using this
  · intro normText companyIndex bannedKeys seenAt
    have hlinks : (refreshCenterPipeline normText hav center offices (some m)
        companyIndex bannedKeys seenAt).links.length =
        ((filterOfficesWithKnownCompanies normText
          (capOfficesByLimit hav center offices (some m)) companyIndex).matchedOffices.filter
            (fun office => !(bannedKeys.contains (officeKey office.osmType office.osmId)))).length := by
      unfold refreshCenterPipeline createLinks
      rw [List.length_map]
    have hmatched : (filterOfficesWithKnownCompanies normText
        (capOfficesByLimit hav center offices (some m)) companyIndex).matchedOffices.length ≤
        (capOfficesByLimit hav center offices (some m)).length := by
      unfold filterOfficesWithKnownCompanies
      by_cases hempty : capOfficesByLimit hav center offices (some m) = []
      · rw [if_pos hempty]
        simp [hempty]
      · rw [if_neg hempty]
        exact List.length_filter_le _ _
    calc (refreshCenterPipeline normText hav center offices (some m)
        companyIndex bannedKeys seenAt).links.length
        ≤ (filterOfficesWithKnownCompanies normText
            (capOfficesByLimit hav center offices (some m)) companyIndex).matchedOffices.length := by
          rw [hlinks]
          exact List.length_filter_le _ _
      _ ≤ (capOfficesByLimit hav center offices (some m)).length := hmatched
      _ ≤ m := hcap_len

unseal List.merge List.mergeSort in
/-- Witness for C6 at `m = 1` on a concrete two-office list (office 2 is
nearer under the supplied distance function, so it is the one kept). -/
theorem c6_cap_keeps_nearest_witness :
    (1 < ([⟨OsmType.node, 1, some "A".toList, none, none, none, none, 9, 0, false⟩,
        ⟨OsmType.node, 2, some "B".toList, none, none, none, none, 2, 0, false⟩] :
          List Office).length) ∧
    capOfficesByLimit (fun _ _ lat _ => lat) ⟨1, "c".toList, "C".toList, 0, 0, true⟩
        [⟨OsmType.node, 1, some "A".toList, none, none, none, none, 9, 0, false⟩,
          ⟨OsmType.node, 2, some "B".toList, none, none, none, none, 2, 0, false⟩]
        (some 1) =
      [⟨OsmType.node, 2, some "B".toList, none, none, none, none, 2, 0, false⟩] ∧
    (capOfficesByLimit (fun _ _ lat _ => lat) ⟨1, "c".toList, "C".toList, 0, 0, true⟩
        [⟨OsmType.node, 1, some "A".toList, none, none, none, none, 9, 0, false⟩,
          ⟨OsmType.node, 2, some "B".toList, none, none, none, none, 2, 0, false⟩]
        (some 1)).length = 1 := by
  have h := (c6_cap_keeps_nearest (fun _ _ lat _ => lat)
    ⟨1, "c".toList, "C".toList, 0, 0, true⟩
    [⟨OsmType.node, 1, some "A".toList, none, none, none, none, 9, 0, false⟩,
      ⟨OsmType.node, 2, some "B".toList, none, none, none, none, 2, 0, false⟩]
    1).2.2.1 (by decide)
  exact ⟨by decide, by rw [h.1]; decide, h.2.1⟩

/-- Rows surviving the in-memory dedupe come from the input rows. -/
theorem mem_dedupeOfficeRows (rows : List OfficeQueryRow) :
    ∀ r ∈ dedupeOfficeRows rows, r ∈ rows := by
  unfold dedupeOfficeRows
  suffices h : ∀ (l : List OfficeQueryRow) (acc : List OfficeQueryRow × List (Str × Int × Int)),
      (∀ r ∈ acc.1, r ∈ rows) → (∀ r ∈ l, r ∈ rows) →
      ∀ r ∈ (l.foldl
        (fun acc row =>
          match row.name with
          | none => acc
          | some n =>
            let key := (normalizeOfficeName n, coordKey6 row.lat, coordKey6 row.lon)
            if acc.2.contains key then acc
            else (acc.1 ++ [row], acc.2 ++ [key]))
        acc).1, r ∈ rows by
    exact h rows ([], []) (by intro r hr; cases hr) (fun r hr => hr)
  intro l
  induction l with
  | nil =>
    intro acc hacc _ r hr
    exact hacc r hr
  | cons row rest ih =>
    intro acc hacc hl r hr
    rw [List.foldl_cons] at hr
    refine ih _ ?_ (fun x hx => hl x (List.mem_cons_of_mem _ hx)) r hr
    intro x hx
    cases hn : row.name with
    | none =>
      rw [hn] at hx
      exact hacc x hx
    | some n =>
      rw [hn] at hx
      by_cases hkey : (normalizeOfficeName n, coordKey6 row.lat, coordKey6 row.lon) ∈ acc.2
      · simp [hkey] at hx
        exact hacc x hx
      · simp [hkey] at hx
        rcases hx with h | h
        · exact hacc x h
        · rw [h]
          exact hl row (List.mem_cons_self _ _)

/-- C1: a banned `(osm_type, osm_id)` pair is never visible — every row of
`listOfficesForCenter` refers to a pair with no `banned_offices` entry,
and the refresh pipeline's survivors and links handed to
`upsertOfficesAndLinks` never carry a key from the banned set. -/
theorem c1_banned_never_visible (s : DbState) (centerId : Int) (radiusM : ℚ)
    (limit : Option Nat) (highConfidenceOnly : Bool) (searchQuery : Option Str)
    (normText : Str → Str) (hav : HaversineFn) (center : CenterRow)
    (normalizedOffices : List Office) (maxOffices : Option Nat)
    (companyIndex : CompanyMatchIndex) (bannedKeys : List (OsmType × Int)) (seenAt : Str) :
    (∀ row ∈ listOfficesForCenter s centerId radiusM limit highConfidenceOnly searchQuery,
      bannedExists s row.osmType row.osmId = false) ∧
    (∀ office ∈ (refreshCenterPipeline normText hav center normalizedOffices maxOffices
        companyIndex bannedKeys seenAt).offices,
      bannedKeys.contains (officeKey office.osmType office.osmId) = false) ∧
    (∀ link ∈ (refreshCenterPipeline normText hav center normalizedOffices maxOffices
        companyIndex bannedKeys seenAt).links,
      bannedKeys.contains (officeKey link.osmType link.osmId) = false) := by
  refine ⟨?_, ?_, ?_⟩
  · intro row hrow
    simp only [listOfficesForCenter] at hrow
    have hrows := mem_dedupeOfficeRows _ row hrow
    rcases List.mem_map.mp hrows with ⟨p, hplim, hproj⟩
    have hpord : p ∈ (s.links.filterMap (fun link =>
        if link.centerId = centerId then
          match s.offices.find? (fun o => o.osmType == link.osmType && o.osmId == link.osmId) with
          | none => none
          | some o => some (o, link)
        else none)).filter
          (officeQueryFilter s radiusM highConfidenceOnly (jsTrim (searchQuery.getD []))) := by
      have hmem : p ∈ ((s.links.filterMap (fun link =>
          if link.centerId = centerId then
            match s.offices.find? (fun o => o.osmType == link.osmType && o.osmId == link.osmId) with
            | none => none
            | some o => some (o, link)
          else none)).filter
            (officeQueryFilter s radiusM highConfidenceOnly (jsTrim (searchQuery.getD [])))).mergeSort
              (fun a b => decide (a.2.distanceM ≤ b.2.distanceM)) := by
        cases limit with
        | none => exact hplim
        | some n => exact List.take_subset n _ hplim
      exact (List.mergeSort_perm _ _).mem_iff.mp hmem
    have hpred := List.of_mem_filter hpord
    have hjoin := List.mem_filter.mp hpord |>.1
    have hbanned : bannedExists s p.2.osmType p.2.osmId = false := by
      simp only [officeQueryFilter, Bool.and_eq_true] at hpred
      have := hpred.1.1.1.2
      simpa using this
    rcases List.mem_filterMap.mp hjoin with ⟨link, _, hf⟩
    have hkeyeq : p.1.osmType = p.2.osmType ∧ p.1.osmId = p.2.osmId := by
      by_cases hc : link.centerId = centerId
      · rw [if_pos hc] at hf
        cases hfind : s.offices.find?
            (fun o => o.osmType == link.osmType && o.osmId == link.osmId) with
        | none =>
          rw [hfind] at hf
          cases hf
        | some o =>
          rw [hfind] at hf
          injection hf with hpo
          have hpl := List.find?_some hfind
          simp only [Bool.and_eq_true, beq_iff_eq] at hpl
          rw [← hpo]
          exact ⟨hpl.1, hpl.2⟩
      · rw [if_neg hc] at hf
        cases hf
    rw [← hproj]
    show bannedExists s p.1.osmType p.1.osmId = false
    rw [hkeyeq.1, hkeyeq.2]
    exact hbanned
  · intro office hoffice
    simp only [refreshCenterPipeline] at hoffice
    have hpred := List.of_mem_filter hoffice
    simpa using hpred
  · intro link hlink
    simp only [refreshCenterPipeline, createLinks] at hlink
    rcases List.mem_map.mp hlink with ⟨office, hoff, heq⟩
    have hpred := List.of_mem_filter hoff
    rw [← heq]
    simpa using hpred

unseal List.merge List.mergeSort in
/-- Witness for C1: a state with one visible office (node 1) and a ban on
node 2 — the returned row and the pipeline survivor both carry an
unbanned key. -/
theorem c1_banned_never_visible_witness :
    bannedExists
        ⟨[], [⟨OsmType.node, 1, some "Acme".toList, 0, 0, false⟩],
          [⟨1, OsmType.node, 1, 5, "t".toList⟩],
          [⟨OsmType.node, 2, none, "t".toList⟩], [], []⟩
        OsmType.node 1 = false ∧
      ([(OsmType.node, (2 : Int))].contains (officeKey OsmType.node 1)) = false := by
  have h := c1_banned_never_visible
    ⟨[], [⟨OsmType.node, 1, some "Acme".toList, 0, 0, false⟩],
      [⟨1, OsmType.node, 1, 5, "t".toList⟩],
      [⟨OsmType.node, 2, none, "t".toList⟩], [], []⟩
    1 10 none false none
    normalizeCompanyTextAscii (fun _ _ _ _ => 0) ⟨1, "c".toList, "C".toList, 0, 0, true⟩
    [⟨OsmType.node, 1, some "Acme".toList, none, none, none, none, 0, 0, false⟩]
    none
    (buildCompanyMatchIndex normalizeCompanyTextAscii [⟨5, "Acme".toList, none⟩])
    [(OsmType.node, (2 : Int))] "t".toList
  exact ⟨h.1 ⟨OsmType.node, 1, some "Acme".toList, 0, 0, false, 5⟩ (by decide),
    h.2.1 ⟨OsmType.node, 1, some "Acme".toList, none, none, none, none, 0, 0, false⟩
      (by decide)⟩
